import Mathlib

/-!
Verification development for the ed line editor with syntax highlighting
(a fork of GNU ed 1.18).  The definitions below are shallow embeddings of
the C sources: signal.c, io.c, regex.c, buffer.c, main_loop.c (sh.h) and
sh.cpp.  Machine ints are modelled as Nat with the relevant bounds made
explicit; fallible routines return Option or a pair carrying the error
message the C code would place in errmsg.
-/

namespace Ed

/-- INT_MAX for a 32-bit int, as used by limits.h on the target platform. -/
def INT_MAX : Nat := 2147483647

/-! ## signal.c: resize_buffer

C source (signal.c):
  if( (unsigned)*size < min_size )
    {
    if( min_size >= INT_MAX )
      { set_error_msg( "Line too long" ); return false; }
    const int new_size = ( ( min_size < 512 ) ? 512 :
      ( min_size > INT_MAX / 2 ) ? INT_MAX : ( min_size / 512 ) * 1024 );
    ... *size = new_size; ... }
  return true;
The buffer pointer / malloc failure paths are not modelled; on success the
function returns the new capacity (*size).  Capacities in the program are
always non-negative (0 initially, else a value this function produced), so
size is a Nat here. -/
def resize_buffer (size : Nat) (min_size : Nat) : Except String Nat :=
  if size < min_size then
    if min_size ≥ INT_MAX then Except.error "Line too long"
    else Except.ok (if min_size < 512 then 512
                    else if min_size > INT_MAX / 2 then INT_MAX
                    else (min_size / 512) * 1024)
  else Except.ok size

/-! ## signal.c: sigwinch_handler

C source (signal.c):
  if( ws.ws_row > 2 && ws.ws_row < 600 ) window_lines_ = ws.ws_row - 2;
  if( ws.ws_col > 8 && ws.ws_col < 1800 ) window_columns_ = ws.ws_col - 8;
The handler receives the reported window size (rows, cols) and the previous
values of window_lines_ / window_columns_; it returns the updated pair. -/
def sigwinch_handler (rows cols : Nat) (window_lines window_columns : Nat) :
    Nat × Nat :=
  ( if 2 < rows ∧ rows < 600 then rows - 2 else window_lines,
    if 8 < cols ∧ cols < 1800 then cols - 8 else window_columns )

/-! ## sh.cpp: highlight

C++ source (sh.cpp):
  int bytesWritten = 0;
  for (char c; ops.get(c) && bytesWritten < 999; )
      out[bytesWritten++] = c;
  out[bytesWritten] = 0;
  *nchar = bytesWritten;
The styled byte stream produced by the external source-highlight library is
opaque; it is the input list here.  The function returns the content bytes
stored in out (before the NUL) together with the value stored in *nchar. -/
def highlightLoop : List Nat → Nat → List Nat
  | [], _ => []
  | c :: rest, n => if n < 999 then c :: highlightLoop rest (n + 1) else []

def highlight (styled : List Nat) : List Nat × Nat :=
  let content := highlightLoop styled 0
  (content, content.length)

/-- Bytes actually stored into the out buffer: the content plus one NUL. -/
def highlightWritten (styled : List Nat) : List Nat :=
  (highlight styled).1 ++ [0]

/-! ## regex.c: compile_regex and the pool of three slots

C source (regex.c):
  static regex_t store[3];
  for( n = 0; n < 3; ++n )
    if( ( exp = &store[n] ) != last_regexp && exp != subst_regexp ) break;
  n = regcomp( exp, pat, cflags );
  if( n ) { ... set_error_msg( buf ); return 0; }
  if( last_regexp && last_regexp != subst_regexp ) regfree( last_regexp );
  last_regexp = exp;
Slots are indices into store; last_regexp / subst_regexp are either null or
a slot index.  regcomp is external: its success is a parameter, and on
success the compiled pattern is stored in the chosen slot.  On failure the
chosen slot holds garbage (none here). -/
structure RegexState where
  pool : Fin 3 → Option String
  last_regexp : Option (Fin 3)
  subst_regexp : Option (Fin 3)

/-- The slot-picking loop of compile_regex: first n < 3 whose address differs
from both cached pointers. -/
def freeSlot (last subst : Option (Fin 3)) : Fin 3 :=
  if some 0 ≠ last ∧ some 0 ≠ subst then 0
  else if some 1 ≠ last ∧ some 1 ≠ subst then 1
  else 2

def compile_regex (ok : Bool) (pat : String) (s : RegexState) :
    Option (Fin 3) × RegexState :=
  let n := freeSlot s.last_regexp s.subst_regexp
  if ok then
    let pool1 := fun i => if i = n then some pat else s.pool i
    -- regfree the previous last_regexp slot unless shared with subst_regexp
    let pool2 := fun i =>
      if s.last_regexp = some i ∧ s.last_regexp ≠ s.subst_regexp then none
      else pool1 i
    (some n, { pool := pool2, last_regexp := some n,
               subst_regexp := s.subst_regexp })
  else
    (none, { s with pool := fun i => if i = n then none else s.pool i })

/-! ## Theorems for claims C7, C8, C9, C10 -/

/-- Helper: the slot chosen by the compile_regex loop differs from both
cached regex slots (pigeonhole over three slots). -/
lemma freeSlot_ne (l s : Option (Fin 3)) :
    l ≠ some (freeSlot l s) ∧ s ≠ some (freeSlot l s) := by
  revert l s; decide

/-- Claim C7: compiling a pattern always uses a pool slot distinct from both
the cached last-search regex and the cached substitution regex; on compile
failure both cached compiled regexes (pointers and slot contents) are left
unchanged; on success the freshly compiled regex replaces the last-search
regex. -/
theorem compile_regex_cache_safe (ok : Bool) (pat : String) (s : RegexState) :
    s.last_regexp ≠ some (freeSlot s.last_regexp s.subst_regexp) ∧
    s.subst_regexp ≠ some (freeSlot s.last_regexp s.subst_regexp) ∧
    (ok = false →
      (compile_regex ok pat s).2.last_regexp = s.last_regexp ∧
      (compile_regex ok pat s).2.subst_regexp = s.subst_regexp ∧
      (∀ i, s.last_regexp = some i → (compile_regex ok pat s).2.pool i = s.pool i) ∧
      (∀ i, s.subst_regexp = some i → (compile_regex ok pat s).2.pool i = s.pool i)) ∧
    (ok = true →
      (compile_regex ok pat s).2.last_regexp =
        some (freeSlot s.last_regexp s.subst_regexp)) := by
  obtain ⟨h1, h2⟩ := freeSlot_ne s.last_regexp s.subst_regexp
  refine ⟨h1, h2, ?_, ?_⟩
  · rintro rfl
    refine ⟨rfl, rfl, ?_, ?_⟩
    · intro i hi
      have hne : i ≠ freeSlot s.last_regexp s.subst_regexp := fun h => h1 (h ▸ hi)
      simp [compile_regex, hne]
    · intro i hi
      have hne : i ≠ freeSlot s.last_regexp s.subst_regexp := fun h => h2 (h ▸ hi)
      simp [compile_regex, hne]
  · rintro rfl
    simp [compile_regex]

/-- Witness for C7: on a concrete state a failing compilation leaves the
cached last-search regex pointer unchanged. -/
theorem compile_regex_cache_safe_witness :
    (compile_regex false "x" ⟨fun _ => none, none, none⟩).2.last_regexp = none :=
  ((compile_regex_cache_safe false "x" ⟨fun _ => none, none, none⟩).2.2.1 rfl).1

/-- Counterexample for claim C8: the call resize_buffer 0 0 (capacity 0, a
request of 0 bytes, as replace_matched_text can issue for an empty match
replaced by an empty template) succeeds and leaves the capacity 0, which is
not at least 512.  So the claim as stated fails. -/
theorem resize_buffer_min512_cex :
    resize_buffer 0 0 = Except.ok 0 ∧ ¬ (512 ≤ (0 : Nat)) :=
  ⟨rfl, by decide⟩

/-- Claim C8 (amended): for every call with a positive requested size and a
capacity that the primitive itself could have produced (0 or at least 512),
success yields a capacity at least min_size and at least 512 that is either
the unchanged capacity, 512, a multiple of 1 KiB, or INT_MAX; and when
growth is needed and the requested size reaches INT_MAX the call fails with
the error message Line too long. -/
theorem resize_buffer_spec (size min_size : Nat)
    (hsize : size = 0 ∨ 512 ≤ size) (hmin : 1 ≤ min_size) :
    (INT_MAX ≤ min_size → size < min_size →
      resize_buffer size min_size = Except.error "Line too long") ∧
    (∀ c, resize_buffer size min_size = Except.ok c →
      min_size ≤ c ∧ 512 ≤ c ∧
      (c = size ∨ c = 512 ∨ c % 1024 = 0 ∨ c = INT_MAX)) := by
  constructor
  · intro hbig hlt
    simp only [resize_buffer, if_pos hlt, ge_iff_le, if_pos hbig]
  · intro c hc
    simp only [resize_buffer] at hc
    split_ifs at hc with hlt hbig h512 hhalf
    -- the contradictory error branch is closed by split_ifs itself
    · -- min_size < 512: capacity 512
      injection hc with hc
      subst hc
      exact ⟨by omega, by omega, Or.inr (Or.inl rfl)⟩
    · -- min_size > INT_MAX / 2: capacity INT_MAX
      injection hc with hc
      subst hc
      have hb : min_size < INT_MAX := by simpa [ge_iff_le, not_le] using hbig
      exact ⟨le_of_lt hb, by norm_num [INT_MAX], Or.inr (Or.inr (Or.inr rfl))⟩
    · -- middle branch: (min_size / 512) * 1024
      injection hc with hc
      subst hc
      have h1 : 512 ≤ min_size := by omega
      have hq : 1 ≤ min_size / 512 := (Nat.one_le_div_iff (by norm_num)).mpr h1
      have hdm := Nat.div_add_mod min_size 512
      have hmod : min_size % 512 < 512 := Nat.mod_lt _ (by norm_num)
      exact ⟨by omega, by omega, Or.inr (Or.inr (Or.inl (Nat.mul_mod_left _ _)))⟩
    · -- size already large enough: capacity unchanged
      injection hc with hc
      subst hc
      exact ⟨by omega, by omega, Or.inl rfl⟩

/-- Witness for C8 (amended): growing an empty buffer to 100 bytes yields
capacity 512. -/
theorem resize_buffer_spec_witness :
    (100 : Nat) ≤ 512 ∧ (512 : Nat) ≤ 512 ∧
    ((512 : Nat) = 0 ∨ (512 : Nat) = 512 ∨ 512 % 1024 = 0 ∨ (512 : Nat) = INT_MAX) :=
  (resize_buffer_spec 0 100 (Or.inl rfl) (by decide)).2 512 rfl

/-- Counterexample for claim C9: a window-size change reporting 3 rows sets
the scroll lines to 1, not to the value 2 that bounding r-2 to the interval
2..600 would give; the handler ignores out-of-range sizes instead of
clamping. -/
theorem sigwinch_handler_clamp_cex :
    (sigwinch_handler 3 80 22 72).1 = 1 ∧
    (sigwinch_handler 3 80 22 72).1 ≠ max 2 (min 600 (3 - 2)) := by
  constructor <;> decide

/-- Claim C9 (amended): a window-size change reporting r rows and c columns
updates the scroll lines to r-2 exactly when 2 < r < 600 and the list
columns to c-8 exactly when 8 < c < 1800, leaving each unchanged otherwise;
since the previous value is at least 1 (22 initially, and the z command only
stores positive counts), the scroll lines stay at least 1, in particular for
windows of fewer than 3 rows. -/
theorem sigwinch_handler_spec (rows cols wl wc : Nat) (hwl : 1 ≤ wl) :
    ((2 < rows ∧ rows < 600) → (sigwinch_handler rows cols wl wc).1 = rows - 2) ∧
    (¬(2 < rows ∧ rows < 600) → (sigwinch_handler rows cols wl wc).1 = wl) ∧
    ((8 < cols ∧ cols < 1800) → (sigwinch_handler rows cols wl wc).2 = cols - 8) ∧
    (¬(8 < cols ∧ cols < 1800) → (sigwinch_handler rows cols wl wc).2 = wc) ∧
    1 ≤ (sigwinch_handler rows cols wl wc).1 := by
  simp only [sigwinch_handler]
  refine ⟨fun h => by simp [h], fun h => by simp [h], fun h => by simp [h],
          fun h => by simp [h], ?_⟩
  split_ifs with h
  · omega
  · exact hwl

/-- Witness for C9 (amended): with a 3-row window and previous scroll lines
22, the scroll-lines value stays at least 1. -/
theorem sigwinch_handler_spec_witness :
    1 ≤ (sigwinch_handler 3 80 22 72).1 :=
  (sigwinch_handler_spec 3 80 22 72 (by decide)).2.2.2.2

/-- Helper: length of the highlight copy loop output. -/
lemma highlightLoop_length (styled : List Nat) :
    ∀ n, (highlightLoop styled n).length = min styled.length (999 - n) := by
  induction styled with
  | nil => intro n; simp [highlightLoop]
  | cons c rest ih =>
      intro n
      simp only [highlightLoop]
      split_ifs with h
      · simp only [List.length_cons, ih (n + 1)]
        omega
      · simp only [List.length_nil]
        omega

/-- Claim C10: for every styled byte stream, the highlight routine stores at
most 999 content bytes followed by exactly one NUL terminator, so at most
1000 bytes total, and reports in nchar the number of content bytes, which is
between 0 and 999.  The fixed 1000-byte buffer of print_line is never
overflowed. -/
theorem highlight_buffer_safe (styled : List Nat) :
    (highlight styled).2 ≤ 999 ∧
    (highlight styled).1.length = (highlight styled).2 ∧
    (highlight styled).2 = min styled.length 999 ∧
    (highlightWritten styled).length = (highlight styled).2 + 1 ∧
    (highlightWritten styled).length ≤ 1000 := by
  have hl := highlightLoop_length styled 0
  simp only [Nat.sub_zero] at hl
  refine ⟨?_, rfl, ?_, ?_, ?_⟩
  · simp only [highlight, hl]; omega
  · simpa [highlight] using hl
  · simp [highlightWritten, highlight]
  · simp only [highlightWritten, List.length_append, List.length_singleton,
               highlight, hl]
    omega

/-! ## buffer.c: the line buffer at the list level

The C code keeps the lines in a doubly-linked ring of line_t nodes with the
globals current_addr_, last_addr_, modified_ and a yank ring.  Here the ring
is a List (lines are byte lists), last_addr is the list length, and the
structural operations are translated one by one.  The undo stack and the
global-command active list are modelled separately (see the heap model
below for undo); interrupt masking has no observable effect on these pure
functions and is dropped. -/

structure EdState where
  lines : List (List Nat)
  current : Nat
  modified : Bool
  yank : List (List Nat)
  deriving Repr, DecidableEq

/-- Splice new elements into a list after position i (0 = before line 1),
the list-level meaning of repeated insert_node after node i. -/
def insertAt (i : Nat) (new ls : List (List Nat)) : List (List Nat) :=
  ls.take i ++ new ++ ls.drop i

/-- The buffer slice holding lines fromA..toA (1-based, inclusive). -/
def lineRange (fromA toA : Nat) (ls : List (List Nat)) : List (List Nat) :=
  (ls.drop (fromA - 1)).take (toA - fromA + 1)

/-- C append_lines: sets current = addr, then for each input line decrements
current once if inserting (and current > 0), writes the line after current
and increments current, setting modified.  The input lines arrive as a list;
reading them from stdin or the global command buffer is outside the model. -/
def append_lines (insert : Bool) (new : List (List Nat)) (addr : Nat)
    (s : EdState) : EdState :=
  if new.isEmpty then { s with current := addr }
  else
    let a := if insert ∧ 0 < addr then addr - 1 else addr
    { s with lines := insertAt a new s.lines,
             current := a + new.length, modified := true }

/-- C yank_lines: clears the yank buffer and duplicates lines fromA..toA
into it. -/
def yank_lines (fromA toA : Nat) (s : EdState) : EdState :=
  { s with yank := lineRange fromA toA s.lines }

/-- C delete_lines: yanks the range, unlinks it, decrements last_addr by
to-from+1, sets current = min from last_addr and the modified flag. -/
def delete_lines (fromA toA : Nat) (s : EdState) : EdState :=
  let s1 := yank_lines fromA toA s
  let newLines := s1.lines.take (fromA - 1) ++ s1.lines.drop toA
  { s1 with lines := newLines, current := min fromA newLines.length,
            modified := true }

/-- C move_lines: when addr = first-1 or addr = second the splice is the
identity and only current is updated to second; otherwise the range is
spliced after addr and current becomes addr plus the range size when moving
backwards, or addr when moving forwards. -/
def move_lines (first second addr : Nat) (s : EdState) : EdState :=
  if addr = first - 1 ∨ addr = second then
    { s with current := second, modified := true }
  else
    let n := second - first + 1
    let seg := lineRange first second s.lines
    let rest := s.lines.take (first - 1) ++ s.lines.drop second
    let pos := if addr < first then addr else addr - n
    { s with lines := insertAt pos seg rest,
             current := if addr < first then addr + n else addr,
             modified := true }

/-- C copy_lines: duplicates lines first..second after addr (the two-pass
split in the C code exists only to walk the ring safely; the spliced result
is the one below) and sets current = addr + copied count. -/
def copy_lines (first second addr : Nat) (s : EdState) : EdState :=
  let n := second - first + 1
  { s with lines := insertAt addr (lineRange first second s.lines) s.lines,
           current := addr + n, modified := true }

/-- C join_lines: concatenates the text of lines fromA..toA, deletes the
range, then writes the joined line after fromA-1, leaving current = fromA. -/
def join_lines (fromA toA : Nat) (s : EdState) : EdState :=
  let joined := (lineRange fromA toA s.lines).flatten
  let s1 := delete_lines fromA toA s
  { s1 with lines := insertAt (fromA - 1) [joined] s1.lines,
            current := fromA, modified := true }

/-- C put_lines: fails with Nothing to put on an empty yank buffer, else
duplicates the yank buffer after addr. -/
def put_lines (addr : Nat) (s : EdState) : Option EdState :=
  if s.yank.isEmpty then none
  else some { s with lines := insertAt addr s.yank s.lines,
                     current := addr + s.yank.length, modified := true }

/-- C read_stream (io.c): inserts the lines read from the stream after addr
and leaves current at the last inserted line (addr when nothing is read);
the r dispatcher sets modified itself when at least one line was read. -/
def read_stream (new : List (List Nat)) (addr : Nat) (s : EdState) : EdState :=
  { s with lines := insertAt addr new s.lines, current := addr + new.length }

/-- The c command (exec_command case c): delete the range, then append the
new lines at current, inserting before it when current ≥ first. -/
def exec_change (first second : Nat) (new : List (List Nat)) (s : EdState) :
    EdState :=
  let s1 := delete_lines first second s
  append_lines (decide (first ≤ s1.current)) new s1.current s1

/-- The loop of search_and_replace (regex.c): lc counts down, addr walks the
range; a changed line (rep returns its replacement lines, produced by
line_replace through the external matcher) is deleted and the replacement
spliced at addr-1, after which addr resumes past the inserted lines. -/
def sr_loop (rep : List Nat → Option (List (List Nat))) :
    Nat → Nat → EdState → Bool → EdState × Bool
  | 0, _, s, found => (s, found)
  | k + 1, addr, s, found =>
    match rep (s.lines.getD (addr - 1) []) with
    | none => sr_loop rep k (addr + 1) s found
    | some repl =>
        let s1 := delete_lines addr addr s
        let s2 := { s1 with lines := insertAt (addr - 1) repl s1.lines,
                            current := (addr - 1) + repl.length,
                            modified := true }
        sr_loop rep k (s2.current + 1) s2 true

/-- C search_and_replace: runs the loop over the range and fails with No
match when no line changed outside a global command. -/
def search_and_replace (rep : List Nat → Option (List (List Nat)))
    (first second : Nat) (isglobal : Bool) (s : EdState) : Option EdState :=
  let r := sr_loop rep (second - first + 1) first s false
  if r.2 = false ∧ isglobal = false then none else some r.1

/-- The m command path of exec_command: check_addr_range, get_third_addr's
bound check on the destination, then the Invalid destination test
addr ≥ first_addr ∧ addr < second_addr, and only then move_lines.  An error
returns the message and the untouched state, as the C code errors out
before any mutation. -/
def exec_move (first second dest : Nat) (s : EdState) :
    Option String × EdState :=
  if first < 1 ∨ second < first ∨ s.lines.length < second then
    (some "Invalid address", s)
  else if s.lines.length < dest then (some "Invalid address", s)
  else if first ≤ dest ∧ dest < second then (some "Invalid destination", s)
  else (none, move_lines first second dest s)

/-- Claim C2: for every buffer and every move command with addresses
1 ≤ first ≤ second ≤ last and destination first ≤ dest < second, the
command fails with the error Invalid destination and the line sequence,
current address and modified flag are unchanged. -/
theorem move_invalid_destination (s : EdState) (first second dest : Nat)
    (h1 : 1 ≤ first) (h2 : first ≤ second) (h3 : second ≤ s.lines.length)
    (h4 : first ≤ dest) (h5 : dest < second) :
    exec_move first second dest s = (some "Invalid destination", s) := by
  have c1 : ¬(first < 1 ∨ second < first ∨ s.lines.length < second) := by omega
  have c2 : ¬(s.lines.length < dest) := by omega
  unfold exec_move
  rw [if_neg c1, if_neg c2, if_pos ⟨h4, h5⟩]

/-- Witness for C2: on a five-line buffer the command 2,4m3 fails with
Invalid destination and leaves the state unchanged. -/
theorem move_invalid_destination_witness :
    exec_move 2 4 3 ⟨[[1], [2], [3], [4], [5]], 5, false, []⟩ =
      (some "Invalid destination", ⟨[[1], [2], [3], [4], [5]], 5, false, []⟩) :=
  move_invalid_destination _ 2 4 3 (by decide) (by decide) (by decide)
    (by decide) (by decide)

/-- Claim C3: for addresses 1 ≤ from ≤ to ≤ last, delete_lines removes
exactly to-from+1 lines (the remaining prefix and suffix), places copies of
the deleted lines in the yank buffer, sets current to min(from, new last)
and sets the modified flag. -/
theorem delete_lines_spec (s : EdState) (fromA toA : Nat)
    (h1 : 1 ≤ fromA) (h2 : fromA ≤ toA) (h3 : toA ≤ s.lines.length) :
    (delete_lines fromA toA s).lines.length =
      s.lines.length - (toA - fromA + 1) ∧
    (delete_lines fromA toA s).lines =
      s.lines.take (fromA - 1) ++ s.lines.drop toA ∧
    (delete_lines fromA toA s).yank = lineRange fromA toA s.lines ∧
    (delete_lines fromA toA s).yank.length = toA - fromA + 1 ∧
    (delete_lines fromA toA s).current =
      min fromA (delete_lines fromA toA s).lines.length ∧
    (delete_lines fromA toA s).modified = true := by
  refine ⟨?_, rfl, rfl, ?_, rfl, rfl⟩
  · simp only [delete_lines, yank_lines, List.length_append, List.length_take,
               List.length_drop]
    omega
  · simp only [delete_lines, yank_lines, lineRange, List.length_take,
               List.length_drop]
    omega

/-- Witness for C3: deleting lines 2..3 of a four-line buffer leaves two
lines, yanks the two deleted lines, and sets current to 2. -/
theorem delete_lines_spec_witness :
    (delete_lines 2 3 ⟨[[1], [2], [3], [4]], 4, false, []⟩).lines.length = 2 ∧
    (delete_lines 2 3 ⟨[[1], [2], [3], [4]], 4, false, []⟩).lines =
      [[1], [4]] ∧
    (delete_lines 2 3 ⟨[[1], [2], [3], [4]], 4, false, []⟩).yank =
      lineRange 2 3 [[1], [2], [3], [4]] ∧
    (delete_lines 2 3 ⟨[[1], [2], [3], [4]], 4, false, []⟩).yank.length = 2 ∧
    (delete_lines 2 3 ⟨[[1], [2], [3], [4]], 4, false, []⟩).current =
      min 2 (delete_lines 2 3 ⟨[[1], [2], [3], [4]], 4, false, []⟩).lines.length ∧
    (delete_lines 2 3 ⟨[[1], [2], [3], [4]], 4, false, []⟩).modified = true := by
  have h := delete_lines_spec ⟨[[1], [2], [3], [4]], 4, false, []⟩ 2 3
    (by decide) (by decide) (by decide)
  exact ⟨h.1, by decide, h.2.2.1, h.2.2.2.1, h.2.2.2.2.1, h.2.2.2.2.2⟩

/-! ## Claim C4: the address invariant after structural commands -/

/-- The invariant claimed by the spec: 0 ≤ current ≤ last and current > 0
unless last = 0 (current is a Nat here, so 0 ≤ current is implicit). -/
def addrInvariant (s : EdState) : Prop :=
  s.current ≤ s.lines.length ∧ (0 < s.current ∨ s.lines.length = 0)

/-- Counterexample for claim C4: the successful command 0a with no input
lines (also 0i, or 0r of an empty file) on a one-line buffer leaves
current = 0 while last = 1, violating the claimed current > 0 unless
last == 0. -/
theorem append_invariant_cex :
    (append_lines false [] 0 ⟨[[7]], 1, false, []⟩).current = 0 ∧
    (append_lines false [] 0 ⟨[[7]], 1, false, []⟩).lines.length = 1 := by
  constructor <;> rfl

/-- Helper: length of insertAt under the position bound. -/
lemma insertAt_length (i : Nat) (new ls : List (List Nat)) (h : i ≤ ls.length) :
    (insertAt i new ls).length = ls.length + new.length := by
  simp only [insertAt, List.length_append, List.length_take, List.length_drop]
  omega

/-- Helper: the search_and_replace loop preserves the address invariant when
replacements are nonempty and the scanned range stays inside the buffer. -/
lemma sr_loop_invariant (rep : List Nat → Option (List (List Nat)))
    (hrep : ∀ l r, rep l = some r → r ≠ []) :
    ∀ (k addr : Nat) (s : EdState) (found : Bool), 1 ≤ addr →
      k + addr ≤ s.lines.length + 1 → addrInvariant s →
      addrInvariant (sr_loop rep k addr s found).1 := by
  intro k
  induction k with
  | zero => intro addr s found _ _ hs; exact hs
  | succ k ih =>
      intro addr s found h1 hk hs
      rw [sr_loop]
      cases hr : rep (s.lines.getD (addr - 1) []) with
      | none => exact ih (addr + 1) s found (by omega) (by omega) hs
      | some repl =>
          have hrne : repl ≠ [] := hrep _ _ hr
          have hrlen : 1 ≤ repl.length := List.length_pos.mpr hrne
          have haddr : addr ≤ s.lines.length := by omega
          have hdel : (delete_lines addr addr s).lines.length
              = s.lines.length - 1 := by
            simp only [delete_lines, yank_lines, List.length_append,
                       List.length_take, List.length_drop]
            omega
          have hlen2 : (insertAt (addr - 1) repl
              (delete_lines addr addr s).lines).length
              = s.lines.length - 1 + repl.length := by
            rw [insertAt_length _ _ _ (by omega), hdel]
          have hbound : k + ((addr - 1) + repl.length + 1) ≤
              (insertAt (addr - 1) repl
                (delete_lines addr addr s).lines).length + 1 := by
            rw [hlen2]; omega
          have hinv : addrInvariant
              ⟨insertAt (addr - 1) repl (delete_lines addr addr s).lines,
               (addr - 1) + repl.length, true,
               (delete_lines addr addr s).yank⟩ := by
            refine ⟨?_, Or.inl (show 0 < (addr - 1) + repl.length by omega)⟩
            show (addr - 1) + repl.length ≤
              (insertAt (addr - 1) repl (delete_lines addr addr s).lines).length
            rw [hlen2]; omega
          exact ih _ _ true (by omega) hbound hinv

/-- Claim C4 (amended): after each successful structural command (append,
insert, change, delete, move, copy, join, substitute, put, read) executed
with valid addresses, 0 ≤ current ≤ last holds, and current > 0 unless
last = 0, except that an append, insert or read that inserts zero lines
leaves current at the addressed line, which is 0 for address 0. -/
theorem structural_commands_invariant :
    (∀ (s : EdState) (ins : Bool) (new : List (List Nat)) (addr : Nat),
      addr ≤ s.lines.length →
      (append_lines ins new addr s).current ≤
        (append_lines ins new addr s).lines.length ∧
      (0 < (append_lines ins new addr s).current ∨
        (append_lines ins new addr s).lines.length = 0 ∨
        (new = [] ∧ addr = 0))) ∧
    (∀ (s : EdState) (first second : Nat) (new : List (List Nat)),
      1 ≤ first → first ≤ second → second ≤ s.lines.length →
      addrInvariant (exec_change first second new s)) ∧
    (∀ (s : EdState) (fromA toA : Nat),
      1 ≤ fromA → fromA ≤ toA → toA ≤ s.lines.length →
      addrInvariant (delete_lines fromA toA s)) ∧
    (∀ (s : EdState) (first second dest : Nat),
      1 ≤ first → first ≤ second → second ≤ s.lines.length →
      dest ≤ s.lines.length → ¬(first ≤ dest ∧ dest < second) →
      addrInvariant (move_lines first second dest s)) ∧
    (∀ (s : EdState) (first second dest : Nat),
      1 ≤ first → first ≤ second → second ≤ s.lines.length →
      dest ≤ s.lines.length →
      addrInvariant (copy_lines first second dest s)) ∧
    (∀ (s : EdState) (fromA toA : Nat),
      1 ≤ fromA → fromA ≤ toA → toA ≤ s.lines.length →
      addrInvariant (join_lines fromA toA s)) ∧
    (∀ (rep : List Nat → Option (List (List Nat)))
       (first second : Nat) (isglobal : Bool) (s s2 : EdState),
      (∀ l r, rep l = some r → r ≠ []) →
      1 ≤ first → first ≤ second → second ≤ s.lines.length →
      addrInvariant s →
      search_and_replace rep first second isglobal s = some s2 →
      addrInvariant s2) ∧
    (∀ (s s2 : EdState) (addr : Nat),
      addr ≤ s.lines.length → put_lines addr s = some s2 →
      addrInvariant s2) ∧
    (∀ (s : EdState) (new : List (List Nat)) (addr : Nat),
      addr ≤ s.lines.length →
      (read_stream new addr s).current ≤
        (read_stream new addr s).lines.length ∧
      (0 < (read_stream new addr s).current ∨
        (read_stream new addr s).lines.length = 0 ∨
        (new = [] ∧ addr = 0))) := by
  have happ : ∀ (s : EdState) (ins : Bool) (new : List (List Nat)) (addr : Nat),
      addr ≤ s.lines.length →
      (append_lines ins new addr s).current ≤
        (append_lines ins new addr s).lines.length ∧
      (0 < (append_lines ins new addr s).current ∨
        (append_lines ins new addr s).lines.length = 0 ∨
        (new = [] ∧ addr = 0)) := by
    intro s ins new addr ha
    simp only [append_lines]
    split_ifs with h0 h1
    · simp only [List.isEmpty_iff] at h0
      subst h0
      rcases Nat.eq_zero_or_pos addr with h | h
      · exact ⟨show addr ≤ s.lines.length from ha, Or.inr (Or.inr ⟨rfl, h⟩)⟩
      · exact ⟨show addr ≤ s.lines.length from ha, Or.inl (show 0 < addr from h)⟩
    · simp only [List.isEmpty_iff] at h0
      have hlen : 1 ≤ new.length :=
        List.length_pos.mpr h0
      have := insertAt_length (addr - 1) new s.lines (by omega)
      exact ⟨by dsimp only; rw [this]; omega,
             Or.inl (show 0 < addr - 1 + new.length by omega)⟩
    · simp only [List.isEmpty_iff] at h0
      have hlen : 1 ≤ new.length := List.length_pos.mpr h0
      have := insertAt_length addr new s.lines ha
      exact ⟨by dsimp only; rw [this]; omega,
             Or.inl (show 0 < addr + new.length by omega)⟩
  have hdel : ∀ (s : EdState) (fromA toA : Nat),
      1 ≤ fromA → fromA ≤ toA → toA ≤ s.lines.length →
      addrInvariant (delete_lines fromA toA s) := by
    intro s fromA toA h1 h2 h3
    have hl : (delete_lines fromA toA s).lines.length
        = s.lines.length - (toA - fromA + 1) :=
      (delete_lines_spec s fromA toA h1 h2 h3).1
    constructor
    · simp only [delete_lines, yank_lines]
      exact min_le_right _ _
    · simp only [delete_lines, yank_lines, List.length_append,
                 List.length_take, List.length_drop]
      omega
  refine ⟨happ, ?_, hdel, ?_, ?_, ?_, ?_, ?_, ?_⟩
  · -- change: delete then append at current
    intro s first second new h1 h2 h3
    have hd := hdel s first second h1 h2 h3
    have ha := happ (delete_lines first second s)
      (decide (first ≤ (delete_lines first second s).current)) new
      (delete_lines first second s).current hd.1
    rcases ha with ⟨hw, hs⟩
    refine ⟨hw, ?_⟩
    rcases hs with h | h | ⟨hnew, hcur⟩
    · exact Or.inl h
    · exact Or.inr h
    · -- zero lines appended at current = 0: then the deleted buffer is empty
      rcases hd.2 with h | h
      · omega
      · subst hnew
        right
        simpa [exec_change, append_lines, hcur] using h
  · -- move
    intro s first second dest h1 h2 h3 h4 h5
    simp only [move_lines]
    split_ifs with h6 h7
    · exact ⟨show second ≤ s.lines.length from h3,
             Or.inl (show 0 < second by omega)⟩
    · -- dest < first: current = dest + n, length unchanged
      have hseg : (lineRange first second s.lines).length = second - first + 1 := by
        simp only [lineRange, List.length_take, List.length_drop]; omega
      have hrest : (s.lines.take (first - 1) ++ s.lines.drop second).length
          = s.lines.length - (second - first + 1) := by
        simp only [List.length_append, List.length_take, List.length_drop]; omega
      have hins := insertAt_length dest (lineRange first second s.lines)
        (s.lines.take (first - 1) ++ s.lines.drop second) (by rw [hrest]; omega)
      refine ⟨?_, Or.inl (show 0 < dest + (second - first + 1) by omega)⟩
      show dest + (second - first + 1) ≤
        (insertAt dest (lineRange first second s.lines)
          (s.lines.take (first - 1) ++ s.lines.drop second)).length
      rw [hins, hrest, hseg]
      omega
    · -- second ≤ dest (not inside, not before): current = dest
      have hd2 : second ≤ dest := by omega
      have hseg : (lineRange first second s.lines).length = second - first + 1 := by
        simp only [lineRange, List.length_take, List.length_drop]; omega
      have hrest : (s.lines.take (first - 1) ++ s.lines.drop second).length
          = s.lines.length - (second - first + 1) := by
        simp only [List.length_append, List.length_take, List.length_drop]; omega
      have hins := insertAt_length (dest - (second - first + 1))
        (lineRange first second s.lines)
        (s.lines.take (first - 1) ++ s.lines.drop second) (by rw [hrest]; omega)
      refine ⟨?_, Or.inl (show 0 < dest by omega)⟩
      show dest ≤
        (insertAt (dest - (second - first + 1)) (lineRange first second s.lines)
          (s.lines.take (first - 1) ++ s.lines.drop second)).length
      rw [hins, hrest, hseg]
      omega
  · -- copy
    intro s first second dest h1 h2 h3 h4
    have hseg : (lineRange first second s.lines).length = second - first + 1 := by
      simp only [lineRange, List.length_take, List.length_drop]; omega
    have hins := insertAt_length dest (lineRange first second s.lines) s.lines h4
    refine ⟨?_, Or.inl (show 0 < dest + (second - first + 1) by omega)⟩
    show dest + (second - first + 1) ≤
      (insertAt dest (lineRange first second s.lines) s.lines).length
    rw [hins, hseg]
    omega
  · -- join
    intro s fromA toA h1 h2 h3
    have hd := (delete_lines_spec s fromA toA h1 h2 h3).1
    have hins := insertAt_length (fromA - 1)
      [(lineRange fromA toA s.lines).flatten]
      (delete_lines fromA toA s).lines (by omega)
    refine ⟨?_, Or.inl (show 0 < fromA from h1)⟩
    show fromA ≤ (insertAt (fromA - 1) [(lineRange fromA toA s.lines).flatten]
      (delete_lines fromA toA s).lines).length
    rw [hins, hd]
    simp only [List.length_singleton]
    omega
  · -- substitute
    intro rep first second isglobal s s2 hrep h1 h2 h3 hs hsr
    simp only [search_and_replace] at hsr
    split_ifs at hsr
    injection hsr with hsr
    subst hsr
    exact sr_loop_invariant rep hrep (second - first + 1) first s false h1
      (by omega) hs
  · -- put
    intro s s2 addr ha hp
    simp only [put_lines] at hp
    split_ifs at hp with hy
    injection hp with hp
    subst hp
    simp only [List.isEmpty_iff] at hy
    have hylen : 1 ≤ s.yank.length := List.length_pos.mpr hy
    have hins := insertAt_length addr s.yank s.lines ha
    refine ⟨?_, Or.inl (show 0 < addr + s.yank.length by omega)⟩
    show addr + s.yank.length ≤ (insertAt addr s.yank s.lines).length
    rw [hins]
    omega
  · -- read
    intro s new addr ha
    have hl := insertAt_length addr new s.lines ha
    rcases eq_or_ne new [] with rfl | hne
    · rcases Nat.eq_zero_or_pos addr with h | h
      · refine ⟨?_, Or.inr (Or.inr ⟨rfl, h⟩)⟩
        show addr + List.length [] ≤ (insertAt addr [] s.lines).length
        rw [hl]; simp; omega
      · refine ⟨?_, Or.inl (show 0 < addr + List.length [] by simp [h])⟩
        show addr + List.length [] ≤ (insertAt addr [] s.lines).length
        rw [hl]; simp; omega
    · have hlen : 1 ≤ new.length := List.length_pos.mpr hne
      refine ⟨?_, Or.inl (show 0 < addr + new.length by omega)⟩
      show addr + new.length ≤ (insertAt addr new s.lines).length
      rw [hl]; omega

/-- Witness for C4 (amended): deleting line 2 of a three-line buffer leaves
a state satisfying the address invariant. -/
theorem structural_commands_invariant_witness :
    addrInvariant (delete_lines 2 2 ⟨[[1], [2], [3]], 3, false, []⟩) :=
  structural_commands_invariant.2.2.1 ⟨[[1], [2], [3]], 3, false, []⟩ 2 2
    (by decide) (by decide) (by decide)

/-! ## io.c: write_stream

C source (io.c):
  while( from && from <= to )
    {
    char * p = get_sbuf_line( lp );
    len = lp->len;
    if( from != last_addr() || !isbinary() || !unterminated_last_line() )
      p[len++] = newline;
    size += len;
    ... write the len bytes ...
    ++from; lp = lp->q_forw;
    }
  return size;
The buffer lines, the binary flag and whether unterminated_line references
the last buffer line are constant during the loop and are parameters; the
loop is fuel-recursive on the remaining line count.  Newline is byte 10. -/
def writeStreamGo (lines : List (List Nat)) (binary untermLast : Bool) :
    Nat → Nat → List Nat × Nat
  | 0, _ => ([], 0)
  | k + 1, fromA =>
    let l := lines.getD (fromA - 1) []
    let withNl := if fromA ≠ lines.length ∨ binary = false ∨ untermLast = false
                  then l ++ [10] else l
    let rest := writeStreamGo lines binary untermLast k (fromA + 1)
    (withNl ++ rest.1, withNl.length + rest.2)

def write_stream (lines : List (List Nat)) (binary untermLast : Bool)
    (fromA toA : Nat) : List Nat × Nat :=
  if fromA = 0 then ([], 0)
  else writeStreamGo lines binary untermLast (toA + 1 - fromA) fromA

/-- The bytes the claim says line a should contribute: the line followed by
a newline, except the last buffer line of a binary buffer whose
unterminated-last-line marker references it. -/
def writeSpecLine (lines : List (List Nat)) (binary untermLast : Bool)
    (a : Nat) : List Nat :=
  lines.getD (a - 1) [] ++
    (if a = lines.length ∧ binary = true ∧ untermLast = true then [] else [10])

/-- Helper: each loop iteration writes exactly the claimed bytes. -/
lemma writeStreamGo_line (lines : List (List Nat)) (binary untermLast : Bool)
    (a : Nat) :
    (if a ≠ lines.length ∨ binary = false ∨ untermLast = false
     then lines.getD (a - 1) [] ++ [10] else lines.getD (a - 1) []) =
    writeSpecLine lines binary untermLast a := by
  by_cases h : a = lines.length ∧ binary = true ∧ untermLast = true
  · have : ¬(a ≠ lines.length ∨ binary = false ∨ untermLast = false) := by
      rcases h with ⟨h1, h2, h3⟩
      simp [h1, h2, h3]
    rw [if_neg this, writeSpecLine, if_pos h, List.append_nil]
  · have : a ≠ lines.length ∨ binary = false ∨ untermLast = false := by
      rcases Bool.eq_false_or_eq_true binary with hb | hb <;>
        rcases Bool.eq_false_or_eq_true untermLast with hu | hu <;>
        simp_all
    rw [if_pos this, writeSpecLine, if_neg h]

/-- Helper: bytes and byte count produced by the write_stream loop. -/
lemma writeStreamGo_spec (lines : List (List Nat)) (binary untermLast : Bool) :
    ∀ (k fromA : Nat),
      (writeStreamGo lines binary untermLast k fromA).1 =
        ((List.range k).map
          (fun i => writeSpecLine lines binary untermLast (fromA + i))).flatten ∧
      (writeStreamGo lines binary untermLast k fromA).2 =
        (writeStreamGo lines binary untermLast k fromA).1.length := by
  intro k
  induction k with
  | zero => intro fromA; simp [writeStreamGo]
  | succ k ih =>
      intro fromA
      obtain ⟨ih1, ih2⟩ := ih (fromA + 1)
      constructor
      · show (if fromA ≠ lines.length ∨ binary = false ∨ untermLast = false
              then lines.getD (fromA - 1) [] ++ [10]
              else lines.getD (fromA - 1) []) ++
            (writeStreamGo lines binary untermLast k (fromA + 1)).1 = _
        rw [writeStreamGo_line, ih1, List.range_succ_eq_map]
        simp only [List.map_cons, List.flatten_cons, Nat.add_zero]
        congr 1
        rw [List.map_map]
        congr 1
        apply List.map_congr_left
        intro i _
        simp only [Function.comp_apply]
        congr 1
        omega
      · show (if fromA ≠ lines.length ∨ binary = false ∨ untermLast = false
              then lines.getD (fromA - 1) [] ++ [10]
              else lines.getD (fromA - 1) []).length +
            (writeStreamGo lines binary untermLast k (fromA + 1)).2 = _
        rw [ih2]
        show _ = ((if fromA ≠ lines.length ∨ binary = false ∨ untermLast = false
              then lines.getD (fromA - 1) [] ++ [10]
              else lines.getD (fromA - 1) []) ++
            (writeStreamGo lines binary untermLast k (fromA + 1)).1).length
        rw [List.length_append]

/-- Claim C6: writing lines fromA..toA writes every line followed by a
newline, except the last line of the buffer when the buffer is binary and
the unterminated-last-line marker references it; the returned count equals
the total number of bytes written. -/
theorem write_stream_spec (lines : List (List Nat)) (binary untermLast : Bool)
    (fromA toA : Nat) (h1 : 1 ≤ fromA) :
    (write_stream lines binary untermLast fromA toA).1 =
      ((List.range (toA + 1 - fromA)).map
        (fun i => writeSpecLine lines binary untermLast (fromA + i))).flatten ∧
    (write_stream lines binary untermLast fromA toA).2 =
      (write_stream lines binary untermLast fromA toA).1.length := by
  have h0 : fromA ≠ 0 := by omega
  simp only [write_stream, if_neg h0]
  exact writeStreamGo_spec lines binary untermLast (toA + 1 - fromA) fromA

/-- Witness for C6: writing both lines of a binary buffer whose last line is
unterminated yields the first line, a newline, and the last line with no
trailing newline; the returned count is the byte count. -/
theorem write_stream_spec_witness :
    (write_stream [[65], [66]] true true 1 2).1 =
      ((List.range 2).map
        (fun i => writeSpecLine [[65], [66]] true true (1 + i))).flatten ∧
    (write_stream [[65], [66]] true true 1 2).2 =
      (write_stream [[65], [66]] true true 1 2).1.length :=
  write_stream_spec [[65], [66]] true true 1 2 (by decide)

/-! ## main_loop.c (sh.h): exec_command on an empty buffer (claim C5)

The model fixes the state of a fresh session holding an empty buffer:
last_addr = 0, current_addr = 0, modified = false, empty yank buffer, empty
undo stack, no addresses before the command verb (so extract_addresses
returns 0 and second_addr = first_addr = current_addr), traditional and
restricted off, outside a global command.  Whether a default filename is
set (a file argument was given) is the hasDefFile parameter.  Each verb is
translated from its exec_command branch: the outcome is the first failing
check's error message, or ok / quit when the command proceeds. -/

inductive CmdOutcome where
  | ok : CmdOutcome
  | quit : CmdOutcome
  | err : String → CmdOutcome
  deriving Repr, DecidableEq

/-- C check_addr_range with the default range already substituted: valid iff
1 ≤ first ≤ second ≤ last. -/
def check_addr_range (first second last : Nat) : Bool :=
  if first < 1 ∨ second < first ∨ last < second then false else true

/-- C check_second_addr: valid iff 1 ≤ second ≤ last. -/
def check_second_addr (second last : Nat) : Bool :=
  if second < 1 ∨ last < second then false else true

def empty_exec (hasDefFile : Bool) (c : Char) : CmdOutcome :=
  -- fresh empty session
  let last := 0
  let current := 0
  match c with
  | 'a' => CmdOutcome.ok                    -- append_lines at second_addr = 0
  | 'c' => if check_addr_range current current last then CmdOutcome.ok
           else CmdOutcome.err "Invalid address"
  | 'd' => if check_addr_range current current last then CmdOutcome.ok
           else CmdOutcome.err "Invalid address"
  | 'e' => if hasDefFile then CmdOutcome.ok       -- not modified, no address
           else CmdOutcome.err "No current filename"
  | 'E' => if hasDefFile then CmdOutcome.ok
           else CmdOutcome.err "No current filename"
  | 'f' => if hasDefFile then CmdOutcome.ok
           else CmdOutcome.err "No current filename"
  | 'g' => if check_addr_range 1 last last then CmdOutcome.ok
           else CmdOutcome.err "Invalid address"
  | 'v' => if check_addr_range 1 last last then CmdOutcome.ok
           else CmdOutcome.err "Invalid address"
  | 'G' => if check_addr_range 1 last last then CmdOutcome.ok
           else CmdOutcome.err "Invalid address"
  | 'V' => if check_addr_range 1 last last then CmdOutcome.ok
           else CmdOutcome.err "Invalid address"
  | 'h' => CmdOutcome.ok
  | 'H' => CmdOutcome.ok
  | 'i' => CmdOutcome.ok                    -- insert before second_addr = 0
  | 'j' => if check_addr_range current (current + 1) last then CmdOutcome.ok
           else CmdOutcome.err "Invalid address"
  | 'k' => if current = 0 then CmdOutcome.err "Invalid address"
           else CmdOutcome.ok               -- k reads the mark char first
  | 'l' => if check_addr_range current current last then CmdOutcome.ok
           else CmdOutcome.err "Invalid address"
  | 'n' => if check_addr_range current current last then CmdOutcome.ok
           else CmdOutcome.err "Invalid address"
  | 'p' => if check_addr_range current current last then CmdOutcome.ok
           else CmdOutcome.err "Invalid address"
  | 'm' => if check_addr_range current current last then CmdOutcome.ok
           else CmdOutcome.err "Invalid address"
  | 'P' => CmdOutcome.ok
  | 'q' => CmdOutcome.quit                  -- buffer not modified
  | 'Q' => CmdOutcome.quit
  | 'r' => if hasDefFile then CmdOutcome.ok -- read after second_addr = 0
           else CmdOutcome.err "No current filename"
  | 's' => if check_addr_range current current last then CmdOutcome.ok
           else CmdOutcome.err "Invalid address"
  | 't' => if check_addr_range current current last then CmdOutcome.ok
           else CmdOutcome.err "Invalid address"
  | 'u' => CmdOutcome.err "Nothing to undo" -- empty undo stack
  | 'w' => if hasDefFile then CmdOutcome.ok -- addr_cnt = 0 and last = 0:
           else CmdOutcome.err "No current filename"  -- writes 0 lines
  | 'W' => if hasDefFile then CmdOutcome.ok
           else CmdOutcome.err "No current filename"
  | 'x' => if last < current then CmdOutcome.err "Invalid address"
           else CmdOutcome.err "Nothing to put"  -- fresh yank buffer empty
  | 'y' => if check_addr_range current current last then CmdOutcome.ok
           else CmdOutcome.err "Invalid address"
  | 'z' => if check_second_addr (current + 1) last then CmdOutcome.ok
           else CmdOutcome.err "Invalid address"
  | '=' => CmdOutcome.ok                    -- prints last_addr = 0
  | '!' => CmdOutcome.ok                    -- shell escape, not restricted
  | '\n' => if check_second_addr (current + 1) last then CmdOutcome.ok
            else CmdOutcome.err "Invalid address"
  | '#' => CmdOutcome.ok
  | _ => CmdOutcome.err "Unknown command"

/-- All command verbs recognized by exec_command. -/
def edVerbs : List Char :=
  ['a', 'c', 'd', 'e', 'E', 'f', 'g', 'v', 'G', 'V', 'h', 'H', 'i', 'j',
   'k', 'l', 'm', 'n', 'p', 'P', 'q', 'Q', 'r', 's', 't', 'u', 'w', 'W',
   'x', 'y', 'z', '=', '!', '#', '\n']

/-- Verbs that do report Invalid address on the empty buffer. -/
def invalidAddrVerbs : List Char :=
  ['c', 'd', 'g', 'v', 'G', 'V', 'j', 'k', 'l', 'm', 'n', 'p', 's', 't',
   'y', 'z', '\n']

/-- Counterexample for claim C5: the command x is not among the claimed
exceptions, yet on an empty buffer it does not fail with Invalid address:
its address check accepts second_addr = 0 and put_lines reports Nothing to
put (and succeeds outright when the yank buffer is not empty).  The verbs
u, e, E, f, w, W similarly fail with other errors or succeed. -/
theorem empty_buffer_x_cex :
    empty_exec false 'x' = CmdOutcome.err "Nothing to put" ∧
    CmdOutcome.err "Nothing to put" ≠ CmdOutcome.err "Invalid address" := by
  constructor
  · rfl
  · decide

/-- Claim C5 (amended): on an empty buffer, a command that addresses the
default range fails with the Invalid address error exactly when its verb is
not one of a, i, r, =, q, Q, P, H, h, !, #, e, E, f, u, w, W, x; that is,
exactly for the verbs c, d, g, v, G, V, j, k, l, m, n, p, s, t, y, z and
the empty print command. -/
theorem empty_buffer_invalid_address :
    ∀ hasDefFile : Bool, ∀ c ∈ edVerbs,
      (empty_exec hasDefFile c = CmdOutcome.err "Invalid address" ↔
        c ∈ invalidAddrVerbs) := by
  decide

/-- Witness for C5 (amended): the d command on an empty buffer fails with
Invalid address. -/
theorem empty_buffer_invalid_address_witness :
    empty_exec false 'd' = CmdOutcome.err "Invalid address" ↔
      'd' ∈ invalidAddrVerbs :=
  empty_buffer_invalid_address false 'd' (by decide)

/-! ## buffer.c: the undo machinery on the pointer heap (claim C1)

The undo stack works directly on the q_forw / q_back pointers of line
nodes. Nodes are Nat ids (0 is buffer_head); a heap holds the two pointer
functions, and link_nodes is the C function
  prev->q_forw = next; next->q_back = prev;
Atoms are (type, head, tail) with head/tail node ids as stored by
push_undo_atom.  The undo loop walks the stack top-down; each UADD is
unlinked, each UDEL relinked, each UMOV/VMOV consumes the next (lower)
stack slot as its partner, after which the partner slot's type is flipped
(type ^= 1) while singles flip their own slot; finally the stack array is
reversed and current/last/modified are swapped with the snapshots. -/

structure Heap where
  forw : Nat → Nat
  back : Nat → Nat

/-- C link_nodes( prev, next ). -/
def link (h : Heap) (p n : Nat) : Heap :=
  { forw := fun x => if x = p then n else h.forw x,
    back := fun x => if x = n then p else h.back x }

lemma link_forw (h : Heap) (p n x : Nat) :
    (link h p n).forw x = if x = p then n else h.forw x := rfl

lemma link_back (h : Heap) (p n x : Nat) :
    (link h p n).back x = if x = n then p else h.back x := rfl

lemma Heap.ext2 {g h : Heap} (hf : g.forw = h.forw) (hb : g.back = h.back) :
    g = h := by
  cases g; cases h; simp_all

inductive UType where
  | UADD : UType
  | UDEL : UType
  | UMOV : UType
  | VMOV : UType
  deriving Repr, DecidableEq

/-- C ustack[n].type ^= 1 with UADD = 0, UDEL = 1, UMOV = 2, VMOV = 3. -/
def flipT : UType → UType
  | UType.UADD => UType.UDEL
  | UType.UDEL => UType.UADD
  | UType.UMOV => UType.VMOV
  | UType.VMOV => UType.UMOV

def isMov : UType → Bool
  | UType.UMOV => true
  | UType.VMOV => true
  | _ => false

lemma isMov_flipT (t : UType) : isMov (flipT t) = isMov t := by
  cases t <;> rfl

structure Atom where
  type : UType
  head : Nat
  tail : Nat
  deriving Repr, DecidableEq

/-- Undo of a UADD atom:
  link_nodes( head->q_back, tail->q_forw ). -/
def stepAdd (h : Heap) (a : Atom) : Heap :=
  link h (h.back a.head) (h.forw a.tail)

/-- Undo of a UDEL atom:
  link_nodes( head->q_back, head ); link_nodes( tail, tail->q_forw );
with the second read performed after the first link, as in the C code. -/
def stepDel (h : Heap) (a : Atom) : Heap :=
  link (link h (h.back a.head) a.head) a.tail
    ((link h (h.back a.head) a.head).forw a.tail)

/-- Undo of a UMOV/VMOV pair (x the upper slot, y the partner below):
  link_nodes( y.head, x.head->q_forw );
  link_nodes( x.tail->q_back, y.tail );
  link_nodes( x.head, x.tail );
again with each read performed in sequence. -/
def stepMov (h : Heap) (x y : Atom) : Heap :=
  link (link (link h y.head (h.forw x.head))
             ((link h y.head (h.forw x.head)).back x.tail) y.tail)
       x.head x.tail

/-- The undo loop (top of stack first) paired with the in-place type flips:
returns the final heap and the stack contents in the original order with
the flips applied.  A UMOV/VMOV atom with no slot below it would read
ustack[-1] in C; committed frames never produce that shape (the Wf
predicate below excludes it) and the model leaves the heap unchanged. -/
def procAtoms : Heap → List Atom → Heap × List Atom
  | h, [] => (h, [])
  | h, a :: rest =>
    if a.type = UType.UADD then
      let p := procAtoms (stepAdd h a) rest
      (p.1, { a with type := UType.UDEL } :: p.2)
    else if a.type = UType.UDEL then
      let p := procAtoms (stepDel h a) rest
      (p.1, { a with type := UType.UADD } :: p.2)
    else
      match rest with
      | [] => (h, [a])
      | b :: rest2 =>
        let p := procAtoms (stepMov h a b) rest2
        (p.1, a :: { b with type := flipT b.type } :: p.2)

/-- Editor state as seen by undo: the node heap, the undo stack (top
first), the current/last/modified registers and their snapshots
u_current_addr / u_last_addr / u_modified. -/
structure UndoState where
  heap : Heap
  atoms : List Atom
  current : Int
  last : Int
  modified : Bool
  uCurrent : Int
  uLast : Int
  uModified : Bool

/-- C undo( isglobal ): refuses when the stack is empty or a snapshot is
negative; otherwise applies the atoms, reverses the stack and swaps the
registers with the snapshots.  isglobal only clears the global active list,
which has no observable effect on the modelled state. -/
def undo (isglobal : Bool) (s : UndoState) : Option UndoState :=
  if s.atoms.length = 0 ∨ s.uCurrent < 0 ∨ s.uLast < 0 then none
  else
    let p := procAtoms s.heap s.atoms
    some { heap := p.1, atoms := p.2.reverse,
           current := s.uCurrent, uCurrent := s.current,
           last := s.uLast, uLast := s.last,
           modified := s.uModified, uModified := s.modified }

/-- The node ids of the first k lines, following q_forw from buffer_head. -/
def seqFrom (h : Heap) : Nat → Nat → List Nat
  | _, 0 => []
  | x, k + 1 => h.forw x :: seqFrom h (h.forw x) k

/-- The observable line sequence of the buffer. -/
def lineSeq (s : UndoState) : List Nat :=
  seqFrom s.heap 0 s.last.toNat

/-- Well-formedness of a UADD atom in the heap it is undone in: its range
is a properly linked segment of the ring and does not touch its own
neighbours. -/
def Cadd (h : Heap) (a : Atom) : Prop :=
  h.forw (h.back a.head) = a.head ∧ h.back (h.forw a.tail) = a.tail ∧
  a.head ≠ h.forw a.tail ∧ a.tail ≠ h.back a.head

/-- Well-formedness of a UDEL atom: its range is detached, its boundary
pointers still reference the two adjacent ring nodes, and those two nodes
are now direct neighbours. -/
def Cdel (h : Heap) (a : Atom) : Prop :=
  h.forw (h.back a.head) = h.forw a.tail ∧
  h.back (h.forw a.tail) = h.back a.head ∧
  a.head ≠ h.forw a.tail ∧ a.tail ≠ h.back a.head

/-- Well-formedness of a UMOV/VMOV pair (x upper slot, y partner): the four
boundary adjacencies produced by the preceding move, plus the node
distinctions that keep the three link_nodes calls from clobbering each
other's reads. -/
def Cmov (h : Heap) (x y : Atom) : Prop :=
  h.forw y.head = y.tail ∧
  h.forw (h.back x.tail) = x.tail ∧
  h.back y.tail = y.head ∧
  h.back (h.forw x.head) = x.head ∧
  x.tail ≠ h.forw x.head ∧
  y.head ≠ x.head ∧
  y.head ≠ h.back x.tail ∧
  y.tail ≠ h.forw x.head ∧
  y.tail ≠ x.tail

/-- A committed undo frame: each atom is well-formed in the heap left by
undoing the atoms above it, and every UMOV/VMOV atom has a partner slot
below it of mov type. -/
inductive Wf : Heap → List Atom → Prop where
  | nil (h : Heap) : Wf h []
  | add (h : Heap) (a : Atom) (rest : List Atom) :
      a.type = UType.UADD → Cadd h a → Wf (stepAdd h a) rest →
      Wf h (a :: rest)
  | del (h : Heap) (a : Atom) (rest : List Atom) :
      a.type = UType.UDEL → Cdel h a → Wf (stepDel h a) rest →
      Wf h (a :: rest)
  | mov (h : Heap) (a b : Atom) (rest : List Atom) :
      isMov a.type = true → isMov b.type = true → Cmov h a b →
      Wf (stepMov h a b) rest → Wf h (a :: b :: rest)

/-- Undoing a UDEL atom exactly reverts undoing the UADD atom with the same
range. -/
lemma stepDel_stepAdd (h : Heap) (a : Atom) (hc : Cadd h a) :
    stepDel (stepAdd h a) a = h := by
  obtain ⟨h1, h2, h3, h4⟩ := hc
  have e1 : (stepAdd h a).back a.head = h.back a.head := by
    simp only [stepAdd, link_back]
    rw [if_neg h3]
  have e2 : (link (stepAdd h a) (h.back a.head) a.head).forw a.tail
      = h.forw a.tail := by
    simp only [stepAdd, link_forw]
    rw [if_neg h4, if_neg h4]
  have em : stepDel (stepAdd h a) a =
      link (link (stepAdd h a) (h.back a.head) a.head) a.tail
        (h.forw a.tail) := by
    unfold stepDel
    rw [e1, e2]
  rw [em]
  apply Heap.ext2
  · funext z
    simp only [stepAdd, link_forw]
    split_ifs with c1 c2
    · subst c1; rfl
    · subst c2; exact h1.symm
    · rfl
  · funext z
    simp only [stepAdd, link_back]
    split_ifs with c1 c2
    · subst c1; exact h2.symm
    · subst c2; rfl
    · rfl

/-- Undoing a UADD atom exactly reverts undoing the UDEL atom with the same
range. -/
lemma stepAdd_stepDel (h : Heap) (a : Atom) (hc : Cdel h a) :
    stepAdd (stepDel h a) a = h := by
  obtain ⟨h1, h2, h3, h4⟩ := hc
  have e0 : (link h (h.back a.head) a.head).forw a.tail = h.forw a.tail := by
    simp only [link_forw]
    rw [if_neg h4]
  have ed : stepDel h a =
      link (link h (h.back a.head) a.head) a.tail (h.forw a.tail) := by
    unfold stepDel
    rw [e0]
  have e1 : (stepDel h a).back a.head = h.back a.head := by
    rw [ed]
    simp only [link_back]
    rw [if_neg h3]
    simp
  have e2 : (stepDel h a).forw a.tail = h.forw a.tail := by
    rw [ed]
    simp only [link_forw]
    simp
  have em : stepAdd (stepDel h a) a =
      link (stepDel h a) (h.back a.head) (h.forw a.tail) := by
    unfold stepAdd
    rw [e1, e2]
  rw [em, ed]
  apply Heap.ext2
  · funext z
    simp only [link_forw]
    split_ifs with c1 c2
    · subst c1; exact h1.symm
    · subst c2; rfl
    · rfl
  · funext z
    simp only [link_back]
    split_ifs with c1 c2
    · subst c1; exact h2.symm
    · subst c2; rfl
    · rfl

/-- Undoing the flipped pair exactly reverts undoing a UMOV/VMOV pair. -/
lemma stepMov_stepMov (h : Heap) (x y : Atom) (hc : Cmov h x y) :
    stepMov (stepMov h x y) y x = h := by
  obtain ⟨p1, p2, p3, p4, m1, m2, m3, m4, m5⟩ := hc
  have e1 : (link h y.head (h.forw x.head)).back x.tail = h.back x.tail := by
    simp only [link_back]
    rw [if_neg m1]
  have em : stepMov h x y =
      link (link (link h y.head (h.forw x.head)) (h.back x.tail) y.tail)
        x.head x.tail := by
    unfold stepMov
    rw [e1]
  have e2 : (stepMov h x y).forw y.head = h.forw x.head := by
    rw [em]
    simp only [link_forw]
    rw [if_neg m2, if_neg m3]
    simp
  have e3 : (link (stepMov h x y) x.head (h.forw x.head)).back y.tail
      = h.back x.tail := by
    rw [em]
    simp only [link_back]
    rw [if_neg m4, if_neg m5]
    simp
  have em2 : stepMov (stepMov h x y) y x =
      link (link (link (stepMov h x y) x.head
          ((stepMov h x y).forw y.head))
        ((link (stepMov h x y) x.head
          ((stepMov h x y).forw y.head)).back y.tail) x.tail)
        y.head y.tail := rfl
  rw [e2] at em2
  rw [e3] at em2
  rw [em2, em]
  apply Heap.ext2
  · funext z
    simp only [link_forw]
    split_ifs with c1 c2 c3
    · subst c1; exact p1.symm
    · subst c2; exact p2.symm
    · subst c3; rfl
    · rfl
  · funext z
    simp only [link_back]
    split_ifs with c1 c2 c3
    · subst c1; exact p3.symm
    · subst c2; rfl
    · subst c3; exact p4.symm
    · rfl

/-! ### Structure of the processed stack -/

/-- Equation lemma: processing a UADD atom. -/
lemma procAtoms_add (h : Heap) (a : Atom) (rest : List Atom)
    (ht : a.type = UType.UADD) :
    procAtoms h (a :: rest) =
      ((procAtoms (stepAdd h a) rest).1,
       { a with type := UType.UDEL } :: (procAtoms (stepAdd h a) rest).2) := by
  rw [procAtoms.eq_def]
  simp [ht]

/-- Equation lemma: processing a UDEL atom. -/
lemma procAtoms_del (h : Heap) (a : Atom) (rest : List Atom)
    (ht : a.type = UType.UDEL) :
    procAtoms h (a :: rest) =
      ((procAtoms (stepDel h a) rest).1,
       { a with type := UType.UADD } :: (procAtoms (stepDel h a) rest).2) := by
  rw [procAtoms.eq_def]
  simp [ht]

lemma isMov_ne_add {t : UType} (ht : isMov t = true) : t ≠ UType.UADD := by
  cases t <;> simp_all [isMov]

lemma isMov_ne_del {t : UType} (ht : isMov t = true) : t ≠ UType.UDEL := by
  cases t <;> simp_all [isMov]

/-- Equation lemma: processing a UMOV/VMOV atom with its partner. -/
lemma procAtoms_pair (h : Heap) (a b : Atom) (rest2 : List Atom)
    (ha : isMov a.type = true) :
    procAtoms h (a :: b :: rest2) =
      ((procAtoms (stepMov h a b) rest2).1,
       a :: { b with type := flipT b.type } ::
         (procAtoms (stepMov h a b) rest2).2) := by
  rw [procAtoms.eq_def]
  simp [isMov_ne_add ha, isMov_ne_del ha]

/-- Processing a nonempty stack yields a nonempty flipped stack. -/
lemma procAtoms_ne_nil (h : Heap) (a : Atom) (rest : List Atom) :
    (procAtoms h (a :: rest)).2 ≠ [] := by
  rw [procAtoms.eq_def]
  by_cases h1 : a.type = UType.UADD
  · simp [h1]
  · by_cases h2 : a.type = UType.UDEL
    · simp [h1, h2]
    · cases rest with
      | nil => simp [h1, h2]
      | cons b rest2 => simp [h1, h2]

/-- A stack shape in which every mov atom is immediately followed by its
partner, and in the shapes we produce the partner is a mov atom as well. -/
inductive Grouped : List Atom → Prop where
  | nil : Grouped []
  | single (a : Atom) (rest : List Atom) :
      isMov a.type = false → Grouped rest → Grouped (a :: rest)
  | pair (a b : Atom) (rest : List Atom) :
      isMov a.type = true → isMov b.type = true → Grouped rest →
      Grouped (a :: b :: rest)

lemma grouped_append_single (a : Atom) (ha : isMov a.type = false)
    {l : List Atom} (hg : Grouped l) : Grouped (l ++ [a]) := by
  induction hg with
  | nil => exact Grouped.single a [] ha Grouped.nil
  | single b rest hb _ ih => exact Grouped.single b _ hb ih
  | pair b c rest hb hc _ ih => exact Grouped.pair b c _ hb hc ih

lemma grouped_append_pair (a b : Atom) (ha : isMov a.type = true)
    (hb : isMov b.type = true) {l : List Atom} (hg : Grouped l) :
    Grouped (l ++ [a, b]) := by
  induction hg with
  | nil => exact Grouped.pair a b [] ha hb Grouped.nil
  | single c rest hc _ ih => exact Grouped.single c _ hc ih
  | pair c d rest hc hd _ ih => exact Grouped.pair c d _ hc hd ih

lemma grouped_reverse {l : List Atom} (hg : Grouped l) :
    Grouped l.reverse := by
  induction hg with
  | nil => exact Grouped.nil
  | single a rest ha _ ih =>
      have he : (a :: rest).reverse = rest.reverse ++ [a] := by simp
      rw [he]
      exact grouped_append_single a ha ih
  | pair a b rest ha hb _ ih =>
      have he : (a :: b :: rest).reverse = rest.reverse ++ [b, a] := by simp
      rw [he]
      exact grouped_append_pair b a hb ha ih

/-- The flipped stack of a committed frame is grouped. -/
lemma wf_grouped {h : Heap} {L : List Atom} (hwf : Wf h L) :
    Grouped (procAtoms h L).2 := by
  induction hwf with
  | nil h => exact Grouped.nil
  | add h a rest ht hc hrest ih =>
      rw [procAtoms_add h a rest ht]
      exact Grouped.single _ _ rfl ih
  | del h a rest ht hc hrest ih =>
      rw [procAtoms_del h a rest ht]
      exact Grouped.single _ _ rfl ih
  | mov h a b rest ha hb hc hrest ih =>
      rw [procAtoms_pair h a b rest ha]
      refine Grouped.pair _ _ _ ha ?_ ih
      show isMov (flipT b.type) = true
      rw [isMov_flipT]
      exact hb

/-- Processing distributes over append when the left part is grouped (no
mov atom at the boundary misses its partner). -/
lemma procAtoms_append {l1 : List Atom} (hg : Grouped l1) :
    ∀ (l2 : List Atom) (h : Heap),
      procAtoms h (l1 ++ l2) =
        ((procAtoms (procAtoms h l1).1 l2).1,
         (procAtoms h l1).2 ++ (procAtoms (procAtoms h l1).1 l2).2) := by
  induction hg with
  | nil => intro l2 h; rfl
  | single a rest ha hgr ih =>
      intro l2 h
      by_cases hA : a.type = UType.UADD
      · rw [List.cons_append, procAtoms_add _ _ _ hA, ih l2 (stepAdd h a),
            procAtoms_add _ _ _ hA]
        simp
      · have hD : a.type = UType.UDEL := by
          cases hT : a.type <;> simp_all [isMov]
        rw [List.cons_append, procAtoms_del _ _ _ hD, ih l2 (stepDel h a),
            procAtoms_del _ _ _ hD]
        simp
  | pair a b rest ha hb hgr ih =>
      intro l2 h
      rw [List.cons_append, List.cons_append, procAtoms_pair _ _ _ _ ha,
          ih l2 (stepMov h a b), procAtoms_pair _ _ _ _ ha]
      simp

/-- Core of the involution: processing the reversed flipped stack restores
the heap of a committed frame exactly. -/
lemma procAtoms_involution {h : Heap} {L : List Atom} (hwf : Wf h L) :
    (procAtoms (procAtoms h L).1 ((procAtoms h L).2).reverse).1 = h := by
  induction hwf with
  | nil h => rfl
  | add h a rest ht hc hrest ih =>
      rw [procAtoms_add h a rest ht]
      have hg : Grouped ((procAtoms (stepAdd h a) rest).2).reverse :=
        grouped_reverse (wf_grouped hrest)
      calc (procAtoms (procAtoms (stepAdd h a) rest).1
              (({ a with type := UType.UDEL } ::
                (procAtoms (stepAdd h a) rest).2).reverse)).1
          = (procAtoms (procAtoms (stepAdd h a) rest).1
              (((procAtoms (stepAdd h a) rest).2).reverse ++
                [{ a with type := UType.UDEL }])).1 := by
            rw [List.reverse_cons]
        _ = (procAtoms (procAtoms (procAtoms (stepAdd h a) rest).1
              (((procAtoms (stepAdd h a) rest).2).reverse)).1
              [{ a with type := UType.UDEL }]).1 := by
            rw [procAtoms_append hg]
        _ = (procAtoms (stepAdd h a) [{ a with type := UType.UDEL }]).1 := by
            rw [ih]
        _ = h := by
            rw [procAtoms_del _ _ _ rfl]
            exact stepDel_stepAdd h a hc
  | del h a rest ht hc hrest ih =>
      rw [procAtoms_del h a rest ht]
      have hg : Grouped ((procAtoms (stepDel h a) rest).2).reverse :=
        grouped_reverse (wf_grouped hrest)
      calc (procAtoms (procAtoms (stepDel h a) rest).1
              (({ a with type := UType.UADD } ::
                (procAtoms (stepDel h a) rest).2).reverse)).1
          = (procAtoms (procAtoms (stepDel h a) rest).1
              (((procAtoms (stepDel h a) rest).2).reverse ++
                [{ a with type := UType.UADD }])).1 := by
            rw [List.reverse_cons]
        _ = (procAtoms (procAtoms (procAtoms (stepDel h a) rest).1
              (((procAtoms (stepDel h a) rest).2).reverse)).1
              [{ a with type := UType.UADD }]).1 := by
            rw [procAtoms_append hg]
        _ = (procAtoms (stepDel h a) [{ a with type := UType.UADD }]).1 := by
            rw [ih]
        _ = h := by
            rw [procAtoms_add _ _ _ rfl]
            exact stepAdd_stepDel h a hc
  | mov h a b rest ha hb hc hrest ih =>
      rw [procAtoms_pair h a b rest ha]
      have hg : Grouped ((procAtoms (stepMov h a b) rest).2).reverse :=
        grouped_reverse (wf_grouped hrest)
      have hbf : isMov ({ b with type := flipT b.type } : Atom).type = true := by
        show isMov (flipT b.type) = true
        rw [isMov_flipT]
        exact hb
      calc (procAtoms (procAtoms (stepMov h a b) rest).1
              ((a :: { b with type := flipT b.type } ::
                (procAtoms (stepMov h a b) rest).2).reverse)).1
          = (procAtoms (procAtoms (stepMov h a b) rest).1
              (((procAtoms (stepMov h a b) rest).2).reverse ++
                [{ b with type := flipT b.type }, a])).1 := by
            simp
        _ = (procAtoms (procAtoms (procAtoms (stepMov h a b) rest).1
              (((procAtoms (stepMov h a b) rest).2).reverse)).1
              [{ b with type := flipT b.type }, a]).1 := by
            rw [procAtoms_append hg]
        _ = (procAtoms (stepMov h a b)
              [{ b with type := flipT b.type }, a]).1 := by
            rw [ih]
        _ = h := by
            rw [procAtoms_pair _ _ _ _ hbf]
            exact stepMov_stepMov h a b hc

/-- Claim C1: undo is an involution.  From any editor state with a
committed undo frame (non-empty undo stack, well-formed atoms, snapshots
recorded, i.e. non-negative) executing undo twice outside a global command
succeeds and restores the current address, the last address, the modified
flag, the whole pointer heap and hence the line sequence. -/
theorem undo_twice_restores (s : UndoState) (hwf : Wf s.heap s.atoms)
    (hne : s.atoms ≠ []) (hc : 0 ≤ s.current) (hl : 0 ≤ s.last)
    (huc : 0 ≤ s.uCurrent) (hul : 0 ≤ s.uLast) :
    ((undo false s).bind (undo false)).map (fun t => t.current)
      = some s.current ∧
    ((undo false s).bind (undo false)).map (fun t => t.last) = some s.last ∧
    ((undo false s).bind (undo false)).map (fun t => t.modified)
      = some s.modified ∧
    ((undo false s).bind (undo false)).map (fun t => t.heap) = some s.heap ∧
    ((undo false s).bind (undo false)).map lineSeq = some (lineSeq s) := by
  have hg1 : ¬(s.atoms.length = 0 ∨ s.uCurrent < 0 ∨ s.uLast < 0) := by
    push_neg
    refine ⟨?_, huc, hul⟩
    intro h
    exact hne (List.length_eq_zero.mp h)
  obtain ⟨a, rest, hL⟩ : ∃ a rest, s.atoms = a :: rest := by
    cases hA : s.atoms with
    | nil => exact absurd hA hne
    | cons a rest => exact ⟨a, rest, rfl⟩
  have hout : (procAtoms s.heap s.atoms).2 ≠ [] := by
    rw [hL]
    exact procAtoms_ne_nil _ _ _
  have hg2 : ¬((procAtoms s.heap s.atoms).2.reverse.length = 0 ∨
      s.current < 0 ∨ s.last < 0) := by
    push_neg
    refine ⟨?_, hc, hl⟩
    intro h
    exact hout (by simpa using List.length_eq_zero.mp h)
  have h1 : undo false s =
      some ⟨(procAtoms s.heap s.atoms).1, (procAtoms s.heap s.atoms).2.reverse,
            s.uCurrent, s.uLast, s.uModified,
            s.current, s.last, s.modified⟩ := by
    unfold undo
    rw [if_neg hg1]
  have h2 : undo false
      (⟨(procAtoms s.heap s.atoms).1, (procAtoms s.heap s.atoms).2.reverse,
        s.uCurrent, s.uLast, s.uModified,
        s.current, s.last, s.modified⟩ : UndoState) =
      some ⟨(procAtoms (procAtoms s.heap s.atoms).1
               ((procAtoms s.heap s.atoms).2.reverse)).1,
            (procAtoms (procAtoms s.heap s.atoms).1
               ((procAtoms s.heap s.atoms).2.reverse)).2.reverse,
            s.current, s.last, s.modified,
            s.uCurrent, s.uLast, s.uModified⟩ := by
    unfold undo
    dsimp only
    rw [if_neg hg2]
  have hb : (undo false s).bind (undo false) =
      some ⟨(procAtoms (procAtoms s.heap s.atoms).1
               ((procAtoms s.heap s.atoms).2.reverse)).1,
            (procAtoms (procAtoms s.heap s.atoms).1
               ((procAtoms s.heap s.atoms).2.reverse)).2.reverse,
            s.current, s.last, s.modified,
            s.uCurrent, s.uLast, s.uModified⟩ := by
    rw [h1]
    exact h2
  refine ⟨?_, ?_, ?_, ?_, ?_⟩
  · rw [hb]; rfl
  · rw [hb]; rfl
  · rw [hb]; rfl
  · rw [hb]
    exact congrArg some (procAtoms_involution hwf)
  · rw [hb]
    refine congrArg some ?_
    show seqFrom (procAtoms (procAtoms s.heap s.atoms).1
        ((procAtoms s.heap s.atoms).2.reverse)).1 0 s.last.toNat
      = seqFrom s.heap 0 s.last.toNat
    rw [procAtoms_involution hwf]

/-- A concrete two-line session after deleting line 2: the ring is
0 -> 1 -> 0 and node 2 is detached with its boundary pointers intact. -/
def exHeap : Heap :=
  { forw := fun x => if x = 0 then 1 else 0,
    back := fun x => if x = 1 then 0 else 1 }

def exUndoState : UndoState :=
  { heap := exHeap, atoms := [⟨UType.UDEL, 2, 2⟩],
    current := 1, last := 1, modified := true,
    uCurrent := 2, uLast := 2, uModified := false }

/-- Witness for C1: on the concrete post-delete state, undoing twice
restores current, last, modified, heap and line sequence. -/
theorem undo_twice_restores_witness :
    ((undo false exUndoState).bind (undo false)).map (fun t => t.current)
      = some exUndoState.current ∧
    ((undo false exUndoState).bind (undo false)).map (fun t => t.last)
      = some exUndoState.last ∧
    ((undo false exUndoState).bind (undo false)).map (fun t => t.modified)
      = some exUndoState.modified ∧
    ((undo false exUndoState).bind (undo false)).map (fun t => t.heap)
      = some exUndoState.heap ∧
    ((undo false exUndoState).bind (undo false)).map lineSeq
      = some (lineSeq exUndoState) :=
  undo_twice_restores exUndoState
    (Wf.del _ _ _ rfl ⟨rfl, rfl, by decide, by decide⟩ (Wf.nil _))
    (by decide) (by decide) (by decide) (by decide) (by decide)

end Ed
